import Mathlib

/-!
Shallow embedding of `src/signals.py`: a small signal-processing utility
offering a uniform timebase generator (`_make_timebase`, wrapping
`np.arange`), two waveform generators (`sine_signal`, `triangle_signal`)
and three affine time-domain transforms (`time_shift`, `time_scale`,
`time_shift_and_scale`, the interpolative ones built on `np.interp`).

Machine floats are modelled by exact arithmetic in a linear ordered field
with a floor (instantiated at `ℚ` for executable claims and at `ℝ` for the
sine generator).  Python `raise ValueError(...)` is modelled by `Except`
over an error taxonomy `SignalError` matching the four distinct messages
raised by the source.
-/

/-- The `ValueError`s the program can raise: the four validation failures
`signals.py` raises explicitly (each a distinct message in the source),
plus numpy's own `ValueError("array of sample points is empty")`, which
`np.interp` raises unconditionally when its sample-point array `xp` is
empty — reachable through `time_scale`/`time_shift_and_scale` once their
two explicit checks pass on an empty grid. -/
inductive SignalError where
  | invalidSamplingRate
  | invalidTimeRange
  | lengthMismatch
  | invalidScaleFactor
  | emptySampleArray
  deriving DecidableEq, Repr

section Defs

variable {α : Type} [LinearOrderedField α] [FloorRing α]

/-- `np.arange(start, stop, step)` in exact arithmetic: the element count is
`ceil((stop - start) / step)` (clamped at zero) and element `i` is
`start + i * step` (numpy computes each element by direct multiplication,
not repeated addition). -/
def arange (start stop step : α) : List α :=
  (List.range (Int.ceil ((stop - start) / step)).toNat).map
    (fun i : ℕ => start + (i : α) * step)

/-- `_make_timebase(t_start, t_end, fs)` from `src/signals.py` lines 6-24:
validates `fs > 0` and `t_end > t_start`, then returns
`np.arange(t_start, t_end, 1/fs)`. -/
def _make_timebase (t_start t_end fs : α) : Except SignalError (List α) :=
  if fs ≤ 0 then .error .invalidSamplingRate
  else if t_end ≤ t_start then .error .invalidTimeRange
  else .ok (arange t_start t_end (1 / fs))

/-- The segment scan inside `np.interp` for an ascending abscissa list,
given as `(x, y)` pairs: walk the consecutive segments, linearly
interpolate on the first segment whose right endpoint is `≥ q`, and return
the `right` fill once `q` is beyond the last abscissa. -/
def interpSegs (q r : α) : List (α × α) → α
  | [] => r
  | [p] => if p.1 < q then r else p.2
  | p1 :: p2 :: rest =>
    if q ≤ p2.1 then p1.2 + (p2.2 - p1.2) * (q - p1.1) / (p2.1 - p1.1)
    else interpSegs q r (p2 :: rest)

/-- `np.interp(q, xp, fp, left, right)` for one query point against a
nonempty `xp`, in exact arithmetic: `left` below the first abscissa,
`right` above the last one, piecewise-linear interpolation in between (an
exact abscissa match returns the exact ordinate).  numpy raises on an
empty `xp` before examining any query; `np_interp_array` below models that
error, so the `[]` branch here (an arbitrary value) is unreachable through
the vectorized call. -/
def np_interp (q : α) (xp fp : List α) (l r : α) : α :=
  match xp with
  | [] => 0
  | x0 :: rest => if q < x0 then l else interpSegs q r ((x0 :: rest).zip fp)

/-- `np.interp(x, xp, fp, left, right)` applied to a whole query array, as
the transforms call it: numpy raises
`ValueError("array of sample points is empty")` whenever `xp` is empty,
unconditionally and before looking at any query; otherwise every query
point is interpolated independently. -/
def np_interp_array (qs xp fp : List α) (l r : α) : Except SignalError (List α) :=
  match xp with
  | [] => .error .emptySampleArray
  | x0 :: rest => .ok (qs.map (fun q => np_interp q (x0 :: rest) fp l r))

/-- `time_shift(t, y, tau)` from `src/signals.py` lines 77-94: length
check, then `(t + tau, y)` with the amplitudes returned as-is. -/
def time_shift (t y : List α) (tau : α) : Except SignalError (List α × List α) :=
  if t.length ≠ y.length then .error .lengthMismatch
  else .ok (t.map (fun ti => ti + tau), y)

/-- `time_scale(t, y, a, fill)` from `src/signals.py` lines 97-119: zero
check on `a`, length check, then `np.interp(a * t, t, y, left=fill,
right=fill)` on the original grid (which raises numpy's
empty-sample-array error when `t` is empty). -/
def time_scale (t y : List α) (a fill : α) : Except SignalError (List α × List α) :=
  if a = 0 then .error .invalidScaleFactor
  else if t.length ≠ y.length then .error .lengthMismatch
  else (np_interp_array (t.map (fun ti => a * ti)) t y fill fill).map
    (fun ys => (t, ys))

/-- `time_shift_and_scale(t, y, tau, a, fill)` from `src/signals.py` lines
122-145: zero check on `a`, length check, then `np.interp(a * t - tau, t,
y, left=fill, right=fill)` on the original grid (which raises numpy's
empty-sample-array error when `t` is empty). -/
def time_shift_and_scale (t y : List α) (tau a fill : α) :
    Except SignalError (List α × List α) :=
  if a = 0 then .error .invalidScaleFactor
  else if t.length ≠ y.length then .error .lengthMismatch
  else (np_interp_array (t.map (fun ti => a * ti - tau)) t y fill fill).map
    (fun ys => (t, ys))

/-- `triangle_signal(freq, t0, t1, amp, fs)` from `src/signals.py` lines
50-72: build the timebase, take `frac = (freq * t) % 1.0` (Python float
`%` with positive divisor is `Int.fract`) and return
`amp * (2 * |2 * frac - 1| - 1)`. -/
def triangle_signal (freq t0 t1 amp fs : α) :
    Except SignalError (List α × List α) :=
  (_make_timebase t0 t1 fs).map (fun t =>
    (t, t.map (fun ti => amp * (2 * |2 * Int.fract (freq * ti) - 1| - 1))))

end Defs

/-- `sine_signal(freq, t0, t1, amp, fs, phase)` from `src/signals.py` lines
29-47: build the timebase and return `amp * sin(2π * freq * t + phase)`. -/
noncomputable def sine_signal (freq t0 t1 amp fs phase : ℝ) :
    Except SignalError (List ℝ × List ℝ) :=
  (_make_timebase t0 t1 fs).map (fun t =>
    (t, t.map (fun ti => amp * Real.sin (2 * Real.pi * freq * ti + phase))))

section Lemmas

variable {α : Type} [LinearOrderedField α]

/-- `v` is the piecewise-linear interpolation of `(t, y)` at the query `q`:
some consecutive pair of samples of the grid brackets `q`, and `v` is the
standard two-point linear interpolation between that pair. -/
def IsLinInterpAt (t y : List α) (q v : α) : Prop :=
  ∃ j : ℕ, ∃ hj : j + 1 < t.length, ∃ hjy : j + 1 < y.length,
    t.get ⟨j, Nat.lt_of_succ_lt hj⟩ ≤ q ∧ q ≤ t.get ⟨j + 1, hj⟩ ∧
    v = y.get ⟨j, Nat.lt_of_succ_lt hjy⟩ +
      (y.get ⟨j + 1, hjy⟩ - y.get ⟨j, Nat.lt_of_succ_lt hjy⟩) *
        (q - t.get ⟨j, Nat.lt_of_succ_lt hj⟩) /
        (t.get ⟨j + 1, hj⟩ - t.get ⟨j, Nat.lt_of_succ_lt hj⟩)

theorem arange_length [FloorRing α] (s e st : α) :
    (arange s e st).length = (Int.ceil ((e - s) / st)).toNat := by
  simp only [arange, List.length_map, List.length_range]

theorem arange_get [FloorRing α] (s e st : α) (i : ℕ)
    (hi : i < (arange s e st).length) :
    (arange s e st).get ⟨i, hi⟩ = s + (i : α) * st := by
  simp only [arange, List.get_eq_getElem, List.getElem_map, List.getElem_range]

theorem interpSegs_of_lt (q r : α) (ps : List (α × α))
    (h : ∀ p ∈ ps, p.1 < q) : interpSegs q r ps = r := by
  induction ps with
  | nil => rfl
  | cons p1 tail ih =>
    cases tail with
    | nil => simp [interpSegs, h p1 (by simp)]
    | cons p2 rest =>
      have h2 : p2.1 < q := h p2 (by simp)
      rw [interpSegs, if_neg (not_le.mpr h2)]
      exact ih (fun p hp => h p (List.mem_cons_of_mem _ hp))

theorem interpSegs_self (r : α) (ps : List (α × α))
    (hs : ps.Pairwise (fun p p' => p.1 < p'.1)) (i : ℕ) (hi : i < ps.length) :
    interpSegs (ps.get ⟨i, hi⟩).1 r ps = (ps.get ⟨i, hi⟩).2 := by
  induction ps generalizing i with
  | nil => simp at hi
  | cons p1 tail ih =>
    have hp1 : ∀ p ∈ tail, p1.1 < p.1 := (List.pairwise_cons.mp hs).1
    have hs' : tail.Pairwise (fun p p' => p.1 < p'.1) := (List.pairwise_cons.mp hs).2
    cases tail with
    | nil =>
      have hi0 : i = 0 := by simpa using Nat.lt_one_iff.mp (by simpa using hi)
      subst hi0
      simp [interpSegs]
    | cons p2 rest =>
      cases i with
      | zero =>
        have hle : p1.1 ≤ p2.1 := le_of_lt (hp1 p2 (by simp))
        simp only [List.get]
        rw [interpSegs, if_pos hle]
        simp
      | succ k =>
        have hk : k < (p2 :: rest).length := by simpa using hi
        have hget : ((p1 :: p2 :: rest).get ⟨k + 1, hi⟩) = (p2 :: rest).get ⟨k, hk⟩ := rfl
        rw [hget]
        cases k with
        | zero =>
          have hlt : p1.1 < p2.1 := hp1 p2 (by simp)
          have hne : p2.1 - p1.1 ≠ 0 := sub_ne_zero.mpr (ne_of_gt hlt)
          simp only [List.get]
          rw [interpSegs, if_pos le_rfl, mul_div_assoc, div_self hne, mul_one]
          ring
        | succ m =>
          have hm : m < rest.length := by simpa using hk
          have hq : ((p2 :: rest).get ⟨m + 1, hk⟩) = rest.get ⟨m, hm⟩ := rfl
          have hmem : rest.get ⟨m, hm⟩ ∈ rest := List.get_mem _ _ _
          have hlt : p2.1 < (rest.get ⟨m, hm⟩).1 :=
            (List.pairwise_cons.mp hs').1 _ hmem
          rw [hq, interpSegs, if_neg (not_le.mpr hlt)]
          have := ih hs' (m + 1) hk
          simpa [hq] using this

theorem interpSegs_bracket (q r : α) (ps : List (α × α)) (h2 : 2 ≤ ps.length)
    (hne : ps ≠ []) (hhead : (ps.head hne).1 ≤ q) (hlast : q ≤ (ps.getLast hne).1) :
    ∃ j : ℕ, ∃ hj : j + 1 < ps.length,
      (ps.get ⟨j, Nat.lt_of_succ_lt hj⟩).1 ≤ q ∧ q ≤ (ps.get ⟨j + 1, hj⟩).1 ∧
      interpSegs q r ps =
        (ps.get ⟨j, Nat.lt_of_succ_lt hj⟩).2 +
          ((ps.get ⟨j + 1, hj⟩).2 - (ps.get ⟨j, Nat.lt_of_succ_lt hj⟩).2) *
            (q - (ps.get ⟨j, Nat.lt_of_succ_lt hj⟩).1) /
            ((ps.get ⟨j + 1, hj⟩).1 - (ps.get ⟨j, Nat.lt_of_succ_lt hj⟩).1) := by
  induction ps with
  | nil => simp at h2
  | cons p1 tail ih =>
    cases tail with
    | nil => simp at h2
    | cons p2 rest =>
      by_cases hq2 : q ≤ p2.1
      · refine ⟨0, by simp, ?_, ?_, ?_⟩
        · simpa using hhead
        · simpa using hq2
        · rw [interpSegs, if_pos hq2]
          rfl
      · have hrest : rest ≠ [] := by
          intro hr
          subst hr
          exact hq2 (by simpa [List.getLast] using hlast)
        have htne : (p2 :: rest) ≠ [] := by simp
        have h2' : 2 ≤ (p2 :: rest).length := by
          cases rest with
          | nil => exact absurd rfl hrest
          | cons p3 rest' => simp
        have hhead' : ((p2 :: rest).head htne).1 ≤ q := le_of_lt (not_le.mp hq2)
        have hlast' : q ≤ ((p2 :: rest).getLast htne).1 := by
          rwa [List.getLast_cons htne] at hlast
        obtain ⟨j, hj, hjl, hjr, hval⟩ := ih h2' htne hhead' hlast'
        refine ⟨j + 1, by simpa using hj, by simpa using hjl, by simpa using hjr, ?_⟩
        rw [interpSegs, if_neg hq2]
        simpa using hval

theorem sorted_head_le {t : List α} (hs : t.Pairwise (· < ·)) (hne : t ≠ [])
    {x : α} (hx : x ∈ t) : t.head hne ≤ x := by
  cases t with
  | nil => exact absurd rfl hne
  | cons a l =>
    rcases List.mem_cons.mp hx with h | h
    · simp [h]
    · exact le_of_lt ((List.pairwise_cons.mp hs).1 x h)

theorem sorted_le_getLast {t : List α} (hs : t.Pairwise (· < ·)) (hne : t ≠ [])
    {x : α} (hx : x ∈ t) : x ≤ t.getLast hne := by
  induction t with
  | nil => exact absurd rfl hne
  | cons a l ih =>
    cases l with
    | nil => simp [List.mem_singleton.mp hx]
    | cons b l' =>
      have hs' := (List.pairwise_cons.mp hs).2
      have hmem : ∀ z ∈ b :: l', a < z := (List.pairwise_cons.mp hs).1
      rw [List.getLast_cons (by simp : (b :: l') ≠ [])]
      rcases List.mem_cons.mp hx with h | h
      · subst h
        exact le_of_lt (hmem _ (List.getLast_mem (by simp)))
      · exact ih hs' (by simp) h

theorem zip_pairwise_fst {t y : List α} (hs : t.Pairwise (· < ·)) :
    (t.zip y).Pairwise (fun p p' => p.1 < p'.1) := by
  rw [List.pairwise_iff_get] at hs ⊢
  intro i j hij
  rw [List.get_zip, List.get_zip]
  exact hs _ _ hij

theorem np_interp_below {t y : List α} (hne : t ≠ []) {q : α} (l r : α)
    (hq : q < t.head hne) : np_interp q t y l r = l := by
  cases t with
  | nil => exact absurd rfl hne
  | cons x0 rest =>
    rw [np_interp, if_pos (by simpa using hq)]

theorem np_interp_above {t y : List α} (hs : t.Pairwise (· < ·)) (hne : t ≠ [])
    {q : α} (l r : α) (hq : t.getLast hne < q) : np_interp q t y l r = r := by
  cases t with
  | nil => exact absurd rfl hne
  | cons x0 rest =>
    have hx0 : ¬ q < x0 :=
      not_lt.mpr (le_of_lt (lt_of_le_of_lt (sorted_le_getLast hs hne (by simp)) hq))
    rw [np_interp, if_neg hx0]
    apply interpSegs_of_lt
    intro p hp
    rcases p with ⟨px, py⟩
    exact lt_of_le_of_lt (sorted_le_getLast hs hne (List.of_mem_zip hp).1) hq

theorem np_interp_self {t y : List α} (hs : t.Pairwise (· < ·))
    (hlen : t.length = y.length) (l r : α) (i : ℕ) (hi : i < t.length)
    (hiy : i < y.length) :
    np_interp (t.get ⟨i, hi⟩) t y l r = y.get ⟨i, hiy⟩ := by
  cases t with
  | nil => simp at hi
  | cons x0 rest =>
    have hne : (x0 :: rest : List α) ≠ [] := by simp
    have hq0 : x0 ≤ (x0 :: rest).get ⟨i, hi⟩ := by
      have h := sorted_head_le hs hne (List.get_mem (x0 :: rest) i hi)
      simpa using h
    have hzi : i < ((x0 :: rest).zip y).length := by
      rw [List.length_zip]
      exact lt_min hi hiy
    have hself := interpSegs_self r ((x0 :: rest).zip y) (zip_pairwise_fst hs) i hzi
    rw [List.get_zip] at hself
    rw [np_interp, if_neg (not_lt.mpr hq0)]
    exact hself

theorem np_interp_eq_interpSegs {t y : List α} (hne : t ≠ []) {q : α} (l r : α)
    (hq : t.head hne ≤ q) : np_interp q t y l r = interpSegs q r (t.zip y) := by
  cases t with
  | nil => exact absurd rfl hne
  | cons x0 rest => rw [np_interp, if_neg (not_lt.mpr (by simpa using hq))]

theorem np_interp_interior {t y : List α} (hne : t ≠ [])
    (hlen : t.length = y.length) (q l r : α)
    (hql : t.head hne ≤ q) (hqr : q ≤ t.getLast hne) (h2 : 2 ≤ t.length) :
    IsLinInterpAt t y q (np_interp q t y l r) := by
  have hzlen : (t.zip y).length = t.length := by
    rw [List.length_zip, hlen, min_self]
  have hzne : t.zip y ≠ [] := by
    intro hc
    have hlc := congrArg List.length hc
    rw [hzlen] at hlc
    simp only [List.length_nil] at hlc
    omega
  have hz2 : 2 ≤ (t.zip y).length := by rw [hzlen]; exact h2
  have hzhead : ((t.zip y).head hzne).1 = t.head hne := by
    rw [List.head_eq_getElem_zero, List.head_eq_getElem_zero, List.getElem_zip]
  have hzlast : ((t.zip y).getLast hzne).1 = t.getLast hne := by
    rw [List.getLast_eq_getElem, List.getLast_eq_getElem, List.getElem_zip]
    simp only [hzlen]
  obtain ⟨j, hj, hjl, hjr, hval⟩ :=
    interpSegs_bracket q r (t.zip y) hz2 hzne (by rw [hzhead]; exact hql)
      (by rw [hzlast]; exact hqr)
  have hjt : j + 1 < t.length := by rw [hzlen] at hj; exact hj
  have hjy : j + 1 < y.length := by omega
  rw [List.get_zip] at hjl hjr
  rw [List.get_zip, List.get_zip] at hval
  refine ⟨j, hjt, hjy, hjl, hjr, ?_⟩
  rw [np_interp_eq_interpSegs hne l r hql]
  exact hval

/-- The complete `np.interp` fill-and-interpolate policy on a strictly
increasing grid: fill strictly outside `[head, getLast]`, exact sample
value at the two boundaries, bracketing linear interpolation in the closed
interval. -/
theorem np_interp_policy {t y : List α}
    (hs : t.Pairwise (· < ·)) (hne : t ≠ []) (hlen : t.length = y.length)
    (q f : α) :
    (q < t.head hne → np_interp q t y f f = f) ∧
    (t.getLast hne < q → np_interp q t y f f = f) ∧
    (∀ hy : y ≠ [], q = t.head hne → np_interp q t y f f = y.head hy) ∧
    (∀ hy : y ≠ [], q = t.getLast hne → np_interp q t y f f = y.getLast hy) ∧
    (t.head hne ≤ q → q ≤ t.getLast hne → 2 ≤ t.length →
      IsLinInterpAt t y q (np_interp q t y f f)) := by
  have h0 : 0 < t.length := List.length_pos.mpr hne
  have h0y : 0 < y.length := hlen ▸ h0
  refine ⟨fun h => np_interp_below hne f f h,
          fun h => np_interp_above hs hne f f h, ?_, ?_,
          fun h1 h2 h3 => np_interp_interior hne hlen q f f h1 h2 h3⟩
  · intro hy h
    have hh : t.head hne = t.get ⟨0, h0⟩ := by
      rw [List.head_eq_getElem_zero hne, List.get_eq_getElem]
    rw [h, hh, np_interp_self hs hlen f f 0 h0 h0y,
      List.head_eq_getElem_zero hy, List.get_eq_getElem]
  · intro hy h
    have hit : t.length - 1 < t.length := by omega
    have hiy : t.length - 1 < y.length := by omega
    have hh : t.getLast hne = t.get ⟨t.length - 1, hit⟩ := by
      rw [List.getLast_eq_getElem, List.get_eq_getElem]
    rw [h, hh, np_interp_self hs hlen f f (t.length - 1) hit hiy,
      List.getLast_eq_getElem, List.get_eq_getElem]
    simp only [hlen]

theorem np_interp_array_nil (qs fp : List α) (l r : α) :
    np_interp_array qs [] fp l r = .error .emptySampleArray := rfl

theorem np_interp_array_of_ne_nil {xp : List α} (hne : xp ≠ []) (qs fp : List α)
    (l r : α) :
    np_interp_array qs xp fp l r =
      .ok (qs.map (fun q => np_interp q xp fp l r)) := by
  cases xp with
  | nil => exact absurd rfl hne
  | cons x0 rest => rfl

theorem time_scale_ok {t y : List α} (a f : α) (ha : a ≠ 0)
    (hlen : t.length = y.length) (hne : t ≠ []) :
    time_scale t y a f =
      .ok (t, t.map (fun ti => np_interp (a * ti) t y f f)) := by
  rw [time_scale, if_neg ha, if_neg (by simpa using hlen),
    np_interp_array_of_ne_nil hne]
  simp only [Except.map, List.map_map]
  rfl

theorem time_shift_and_scale_ok {t y : List α} (tau a f : α) (ha : a ≠ 0)
    (hlen : t.length = y.length) (hne : t ≠ []) :
    time_shift_and_scale t y tau a f =
      .ok (t, t.map (fun ti => np_interp (a * ti - tau) t y f f)) := by
  rw [time_shift_and_scale, if_neg ha, if_neg (by simpa using hlen),
    np_interp_array_of_ne_nil hne]
  simp only [Except.map, List.map_map]
  rfl

end Lemmas

/-- C1: for every `fs > 0` and `t_end > t_start`, `_make_timebase` succeeds
and returns the ordered (strictly increasing) sequence of samples
`t_start + i * dt` with `dt = 1/fs`, whose first sample equals `t_start`,
whose every sample is strictly less than `t_end` (`t_end` is never
included), and whose length in exact arithmetic is
`ceil((t_end - t_start) * fs)`. -/
theorem C1_generate_timebase (t_start t_end fs : ℚ) (hfs : 0 < fs)
    (ht : t_start < t_end) :
    ∃ ts : List ℚ, _make_timebase t_start t_end fs = .ok ts ∧
      ts.length = (Int.ceil ((t_end - t_start) * fs)).toNat ∧
      (∀ i (hi : i < ts.length), ts.get ⟨i, hi⟩ = t_start + (i : ℚ) * (1 / fs)) ∧
      ts.Pairwise (· < ·) ∧
      (∃ h0 : ts ≠ [], ts.head h0 = t_start) ∧
      (∀ x ∈ ts, x < t_end) := by
  have hfs' : fs ≠ 0 := ne_of_gt hfs
  have hkey : (t_end - t_start) / (1 / fs) = (t_end - t_start) * fs := by
    rw [one_div, div_eq_mul_inv, inv_inv]
  refine ⟨arange t_start t_end (1 / fs), ?_, ?_, ?_, ?_, ?_, ?_⟩
  · rw [_make_timebase, if_neg (not_le.mpr hfs), if_neg (not_le.mpr ht)]
  · rw [arange_length, hkey]
  · intro i hi
    exact arange_get _ _ _ i hi
  · rw [List.pairwise_iff_get]
    intro i j hij
    rw [arange_get, arange_get]
    have hdt : (0 : ℚ) < 1 / fs := by positivity
    have hcast : ((i : ℕ) : ℚ) < ((j : ℕ) : ℚ) := by exact_mod_cast hij
    exact add_lt_add_left (mul_lt_mul_of_pos_right hcast hdt) _
  · have hpos : (0 : ℚ) < (t_end - t_start) * fs :=
      mul_pos (sub_pos.mpr ht) hfs
    have hcpos : 0 < Int.ceil ((t_end - t_start) * fs) := Int.ceil_pos.mpr hpos
    have hlpos : 0 < (arange t_start t_end (1 / fs)).length := by
      rw [arange_length, hkey]
      omega
    have hne : arange t_start t_end (1 / fs) ≠ [] :=
      List.ne_nil_of_length_pos hlpos
    refine ⟨hne, ?_⟩
    rw [List.head_eq_getElem_zero]
    have h0 := arange_get t_start t_end (1 / fs) 0 hlpos
    simpa using h0
  · intro x hx
    obtain ⟨⟨i, hi⟩, rfl⟩ := List.mem_iff_get.mp hx
    rw [arange_get]
    have hlt : (i : ℚ) < (t_end - t_start) * fs := by
      rw [arange_length, hkey] at hi
      have hcpos : (0 : ℤ) ≤ Int.ceil ((t_end - t_start) * fs) :=
        le_of_lt (Int.ceil_pos.mpr (mul_pos (sub_pos.mpr ht) hfs))
      have hiz : (i : ℤ) < Int.ceil ((t_end - t_start) * fs) := by
        omega
      have hceil : (Int.ceil ((t_end - t_start) * fs) : ℚ) <
          (t_end - t_start) * fs + 1 := Int.ceil_lt_add_one _
      have : ((i : ℤ) : ℚ) ≤ (Int.ceil ((t_end - t_start) * fs) : ℚ) - 1 := by
        have : (i : ℤ) ≤ Int.ceil ((t_end - t_start) * fs) - 1 := by omega
        exact_mod_cast this
      push_cast at this
      linarith
    have hmul : (i : ℚ) * (1 / fs) < ((t_end - t_start) * fs) * (1 / fs) :=
      mul_lt_mul_of_pos_right hlt (by positivity)
    have hcancel : ((t_end - t_start) * fs) * (1 / fs) = t_end - t_start := by
      field_simp
    linarith

/-- Witness for C1 at `t_start = 0`, `t_end = 1`, `fs = 2`: the call
succeeds and produces exactly two samples. -/
theorem C1_generate_timebase_witness :
    ∃ ts : List ℚ, _make_timebase 0 1 2 = .ok ts ∧ ts.length = 2 := by
  obtain ⟨ts, hok, hlen, -⟩ :=
    C1_generate_timebase 0 1 2 (by norm_num) (by norm_num)
  refine ⟨ts, hok, ?_⟩
  rw [hlen]
  have hc : Int.ceil ((1 - 0 : ℚ) * 2) = 2 := by norm_num
  rw [hc]
  rfl

theorem except_map_error {ε β γ : Type} (f : β → γ) (x : Except ε β) (e : ε) :
    x.map f = .error e ↔ x = .error e := by
  cases x <;> simp [Except.map]

/-- C9 counterexample: at `t_start = 1`, `t_end = 0`, `fs = 0` the condition
`t_end ≤ t_start` holds, yet the call raises `InvalidSamplingRate` rather
than the `InvalidTimeRange` the claim promises for that condition: the
sampling-rate check runs first. -/
theorem C9_precedence_counterexample :
    ((0 : ℚ) ≤ 1) ∧
    _make_timebase (1 : ℚ) 0 0 = .error .invalidSamplingRate ∧
    _make_timebase (1 : ℚ) 0 0 ≠ .error .invalidTimeRange := by
  have h : _make_timebase (1 : ℚ) 0 0 = .error .invalidSamplingRate := by
    norm_num [_make_timebase]
  refine ⟨by norm_num, h, ?_⟩
  rw [h]
  simp

/-- C9 amended: `_make_timebase` raises `InvalidSamplingRate` exactly when
`fs ≤ 0`, raises `InvalidTimeRange` exactly when `fs > 0` and
`t_end ≤ t_start` (the sampling-rate check takes precedence on overlapping
invalid inputs), and returns normally exactly when `fs > 0` and
`t_end > t_start`; the signal generators built on it propagate exactly
these errors, and `generate_timebase(0, 1, 0)` and
`generate_timebase(1, 0, 10)` each raise a validation error. -/
theorem C9_timebase_errors :
    (∀ t0 t1 fs : ℚ,
      (_make_timebase t0 t1 fs = .error .invalidSamplingRate ↔ fs ≤ 0) ∧
      (_make_timebase t0 t1 fs = .error .invalidTimeRange ↔ 0 < fs ∧ t1 ≤ t0) ∧
      ((0 < fs ∧ t0 < t1) ↔ ∃ ts, _make_timebase t0 t1 fs = .ok ts)) ∧
    (∀ freq t0 t1 amp fs : ℚ, ∀ e : SignalError,
      triangle_signal freq t0 t1 amp fs = .error e ↔
        _make_timebase t0 t1 fs = .error e) ∧
    (∀ freq t0 t1 amp fs phase : ℝ, ∀ e : SignalError,
      sine_signal freq t0 t1 amp fs phase = .error e ↔
        _make_timebase t0 t1 fs = .error e) ∧
    _make_timebase (0 : ℚ) 1 0 = .error .invalidSamplingRate ∧
    _make_timebase (1 : ℚ) 0 10 = .error .invalidTimeRange := by
  refine ⟨?_, ?_, ?_, by norm_num [_make_timebase], by norm_num [_make_timebase]⟩
  · intro t0 t1 fs
    by_cases h1 : fs ≤ 0
    · rw [_make_timebase, if_pos h1]
      refine ⟨by simp [h1], by simp [not_lt.mpr h1], ?_⟩
      constructor
      · rintro ⟨hfs, -⟩
        exact absurd h1 (not_le.mpr hfs)
      · rintro ⟨ts, hts⟩
        exact absurd hts (by simp)
    · by_cases h2 : t1 ≤ t0
      · rw [_make_timebase, if_neg h1, if_pos h2]
        refine ⟨by simp [h1], iff_of_true rfl ⟨not_le.mp h1, h2⟩, ?_⟩
        constructor
        · rintro ⟨-, ht⟩
          exact absurd h2 (not_le.mpr ht)
        · rintro ⟨ts, hts⟩
          exact absurd hts (by simp)
      · rw [_make_timebase, if_neg h1, if_neg h2]
        exact ⟨by simp [h1], by simp [h2], iff_of_true ⟨not_le.mp h1, not_le.mp h2⟩
          ⟨arange t0 t1 (1 / fs), rfl⟩⟩
  · intro freq t0 t1 amp fs e
    rw [triangle_signal, except_map_error]
  · intro freq t0 t1 amp fs phase e
    rw [sine_signal, except_map_error]

/-- C8 counterexample, two failures of the claim at concrete inputs: when
both the scale factor is zero and the lengths mismatch, `time_scale`
raises `InvalidScaleFactor`, not the `LengthMismatch` the claim's
biconditional requires (the zero-scale check runs first); and on the
empty grid with `a = 1` both documented checks pass, yet the call raises
numpy's empty-sample-array error instead of returning normally. -/
theorem C8_error_behavior_counterexample :
    (List.length [(0 : ℚ)] ≠ List.length ([] : List ℚ)) ∧
    time_scale [(0 : ℚ)] [] 0 0 = .error .invalidScaleFactor ∧
    time_scale [(0 : ℚ)] [] 0 0 ≠ .error .lengthMismatch ∧
    ((1 : ℚ) ≠ 0 ∧ List.length ([] : List ℚ) = List.length ([] : List ℚ)) ∧
    time_scale ([] : List ℚ) [] 1 0 = .error .emptySampleArray := by
  have h : time_scale [(0 : ℚ)] [] 0 0 = .error .invalidScaleFactor := by
    rw [time_scale, if_pos rfl]
  have h2 : time_scale ([] : List ℚ) [] 1 0 = .error .emptySampleArray := by
    rw [time_scale, if_neg (by norm_num), if_neg (by simp),
      np_interp_array_nil]
    rfl
  refine ⟨by simp, h, ?_, ⟨by norm_num, rfl⟩, h2⟩
  rw [h]
  simp

/-- C8 amended: `time_shift` raises `LengthMismatch` exactly when
`len(t) ≠ len(y)`, nothing else, and returns normally otherwise;
`time_scale` and `time_shift_and_scale` raise `InvalidScaleFactor`
exactly when `a = 0`, raise `LengthMismatch` exactly when `a ≠ 0` and
`len(t) ≠ len(y)` (the zero-scale check takes precedence on overlapping
invalid inputs), additionally raise numpy's empty-sample-array
`ValueError` exactly when both checks pass but the grid is empty, and
return normally exactly when `a ≠ 0`, the lengths agree and the grid is
nonempty. -/
theorem C8_transform_errors :
    (∀ (t y : List ℚ) (tau : ℚ),
      (time_shift t y tau = .error .lengthMismatch ↔ t.length ≠ y.length) ∧
      (∀ e : SignalError, time_shift t y tau = .error e → e = .lengthMismatch) ∧
      (t.length = y.length ↔ ∃ p, time_shift t y tau = .ok p)) ∧
    (∀ (t y : List ℚ) (a f : ℚ),
      (time_scale t y a f = .error .invalidScaleFactor ↔ a = 0) ∧
      (time_scale t y a f = .error .lengthMismatch ↔ a ≠ 0 ∧ t.length ≠ y.length) ∧
      (time_scale t y a f = .error .emptySampleArray ↔
        a ≠ 0 ∧ t.length = y.length ∧ t = []) ∧
      ((a ≠ 0 ∧ t.length = y.length ∧ t ≠ []) ↔
        ∃ p, time_scale t y a f = .ok p)) ∧
    (∀ (t y : List ℚ) (tau a f : ℚ),
      (time_shift_and_scale t y tau a f = .error .invalidScaleFactor ↔ a = 0) ∧
      (time_shift_and_scale t y tau a f = .error .lengthMismatch ↔
        a ≠ 0 ∧ t.length ≠ y.length) ∧
      (time_shift_and_scale t y tau a f = .error .emptySampleArray ↔
        a ≠ 0 ∧ t.length = y.length ∧ t = []) ∧
      ((a ≠ 0 ∧ t.length = y.length ∧ t ≠ []) ↔
        ∃ p, time_shift_and_scale t y tau a f = .ok p)) := by
  refine ⟨?_, ?_, ?_⟩
  · intro t y tau
    by_cases h : t.length = y.length
    · rw [time_shift, if_neg (by simpa using h)]
      exact ⟨by simp [h], by simp, by simp [h]⟩
    · rw [time_shift, if_pos (by simpa using h)]
      exact ⟨by simp [h], by simp, by simp [h]⟩
  · intro t y a f
    by_cases ha : a = 0
    · rw [time_scale, if_pos ha]
      refine ⟨by simp [ha], by simp [ha], by simp [ha], ?_⟩
      constructor
      · rintro ⟨ha', -⟩
        exact absurd ha ha'
      · rintro ⟨p, hp⟩
        exact absurd hp (by simp)
    · by_cases h : t.length = y.length
      · by_cases ht : t = []
        · subst ht
          rw [time_scale, if_neg ha, if_neg (by simpa using h),
            np_interp_array_nil]
          refine ⟨by simp [ha, Except.map], by simp [ha, h, Except.map], ?_, ?_⟩
          · exact iff_of_true rfl ⟨ha, h, rfl⟩
          · constructor
            · rintro ⟨-, -, hne⟩
              exact absurd rfl hne
            · rintro ⟨p, hp⟩
              exact absurd hp (by simp [Except.map])
        · rw [time_scale_ok a f ha h ht]
          refine ⟨by simp [ha], by simp [ha, h], by simp [ht], ?_⟩
          exact iff_of_true ⟨ha, h, ht⟩ ⟨_, rfl⟩
      · rw [time_scale, if_neg ha, if_pos (by simpa using h)]
        exact ⟨by simp [ha], by simp [ha, h], by simp [h], by simp [ha, h]⟩
  · intro t y tau a f
    by_cases ha : a = 0
    · rw [time_shift_and_scale, if_pos ha]
      refine ⟨by simp [ha], by simp [ha], by simp [ha], ?_⟩
      constructor
      · rintro ⟨ha', -⟩
        exact absurd ha ha'
      · rintro ⟨p, hp⟩
        exact absurd hp (by simp)
    · by_cases h : t.length = y.length
      · by_cases ht : t = []
        · subst ht
          rw [time_shift_and_scale, if_neg ha, if_neg (by simpa using h),
            np_interp_array_nil]
          refine ⟨by simp [ha, Except.map], by simp [ha, h, Except.map], ?_, ?_⟩
          · exact iff_of_true rfl ⟨ha, h, rfl⟩
          · constructor
            · rintro ⟨-, -, hne⟩
              exact absurd rfl hne
            · rintro ⟨p, hp⟩
              exact absurd hp (by simp [Except.map])
        · rw [time_shift_and_scale_ok tau a f ha h ht]
          refine ⟨by simp [ha], by simp [ha, h], by simp [ht], ?_⟩
          exact iff_of_true ⟨ha, h, ht⟩ ⟨_, rfl⟩
      · rw [time_shift_and_scale, if_neg ha, if_pos (by simpa using h)]
        exact ⟨by simp [ha], by simp [ha, h], by simp [h], by simp [ha, h]⟩

/-- C4: for equal-length `t`, `y` and any `tau`, `time_shift` returns the
time sequence with `tau` added to every element and the amplitude sequence
exactly unchanged (the very same list, no interpolation); in particular
`t = [0, 0.1, 0.2, 0.3]`, `y = [10, 11, 12, 13]`, `tau = 0.25` gives
`t' = [0.25, 0.35, 0.45, 0.55]` and `y' = [10, 11, 12, 13]`. -/
theorem C4_time_shift (t y : List ℚ) (tau : ℚ) (hlen : t.length = y.length) :
    (∃ t' : List ℚ, time_shift t y tau = .ok (t', y) ∧
      t'.length = t.length ∧
      ∀ i (hi : i < t.length) (hi' : i < t'.length),
        t'.get ⟨i, hi'⟩ = t.get ⟨i, hi⟩ + tau) ∧
    time_shift [(0 : ℚ), 1 / 10, 2 / 10, 3 / 10] [10, 11, 12, 13] (1 / 4) =
      .ok ([1 / 4, 7 / 20, 9 / 20, 11 / 20], [10, 11, 12, 13]) := by
  constructor
  · refine ⟨t.map (fun ti => ti + tau), ?_, by simp, ?_⟩
    · rw [time_shift, if_neg (by simpa using hlen)]
    · intro i hi hi'
      simp
  · rw [time_shift, if_neg (by norm_num)]
    norm_num

/-- Witness for C4 at the claim's concrete scenario. -/
theorem C4_time_shift_witness :
    time_shift [(0 : ℚ), 1 / 10, 2 / 10, 3 / 10] [10, 11, 12, 13] (1 / 4) =
      .ok ([1 / 4, 7 / 20, 9 / 20, 11 / 20], [10, 11, 12, 13]) :=
  (C4_time_shift [0, 1 / 10, 2 / 10, 3 / 10] [10, 11, 12, 13] (1 / 4)
    (by norm_num)).2

/-- C2: for strictly increasing `t`, equal-length `y`, nonzero `a` and any
fill `f`, `time_scale` returns the same time grid paired with amplitudes
where sample `i` is governed by the query `q = a * t[i]`: fill strictly
outside `[min t, max t]`, the exact boundary sample value at a query
exactly equal to `min t` or `max t`, and bracketing piecewise-linear
interpolation for queries inside the domain. -/
theorem C2_time_scale (t y : List ℚ) (a f : ℚ)
    (hs : t.Pairwise (· < ·)) (hne : t ≠ []) (hlen : t.length = y.length)
    (ha : a ≠ 0) :
    ∃ ys : List ℚ, time_scale t y a f = .ok (t, ys) ∧ ys.length = t.length ∧
      ∀ i (hi : i < t.length) (hi' : i < ys.length),
        (a * t.get ⟨i, hi⟩ < t.head hne → ys.get ⟨i, hi'⟩ = f) ∧
        (t.getLast hne < a * t.get ⟨i, hi⟩ → ys.get ⟨i, hi'⟩ = f) ∧
        (∀ hy : y ≠ [], a * t.get ⟨i, hi⟩ = t.head hne →
          ys.get ⟨i, hi'⟩ = y.head hy) ∧
        (∀ hy : y ≠ [], a * t.get ⟨i, hi⟩ = t.getLast hne →
          ys.get ⟨i, hi'⟩ = y.getLast hy) ∧
        (t.head hne ≤ a * t.get ⟨i, hi⟩ → a * t.get ⟨i, hi⟩ ≤ t.getLast hne →
          2 ≤ t.length →
          IsLinInterpAt t y (a * t.get ⟨i, hi⟩) (ys.get ⟨i, hi'⟩)) := by
  refine ⟨t.map (fun ti => np_interp (a * ti) t y f f), ?_, by simp, ?_⟩
  · exact time_scale_ok a f ha hlen hne
  · intro i hi hi'
    have hget : (t.map (fun ti => np_interp (a * ti) t y f f)).get ⟨i, hi'⟩ =
        np_interp (a * t.get ⟨i, hi⟩) t y f f := by
      simp
    obtain ⟨hbelow, habove, hhead, hlast, hmid⟩ :=
      np_interp_policy hs hne hlen (a * t.get ⟨i, hi⟩) f
    rw [hget]
    exact ⟨hbelow, habove, hhead, hlast, hmid⟩

/-- Witness for C2 at `t = [0, 1]`, `y = [0, 10]`, `a = 1/2`, `f = 99`. -/
theorem C2_time_scale_witness :
    ∃ ys : List ℚ, time_scale [0, 1] [0, 10] (1 / 2) 99 = .ok ([0, 1], ys) := by
  obtain ⟨ys, hok, -⟩ := C2_time_scale [0, 1] [0, 10] (1 / 2) 99
    (by norm_num [List.pairwise_cons]) (by simp) (by simp) (by norm_num)
  exact ⟨ys, hok⟩

/-- C3: for strictly increasing `t`, equal-length `y`, any `tau`, nonzero
`a` and fill `f`, `time_shift_and_scale` returns the original grid paired
with amplitudes obtained by directly interpolating `(t, y)` at query
`q = a * t[i] - tau` (the scale applied to the time variable before
subtracting the shift), with the same out-of-domain fill policy as
`time_scale`. -/
theorem C3_time_shift_and_scale (t y : List ℚ) (tau a f : ℚ)
    (hs : t.Pairwise (· < ·)) (hne : t ≠ []) (hlen : t.length = y.length)
    (ha : a ≠ 0) :
    ∃ ys : List ℚ, time_shift_and_scale t y tau a f = .ok (t, ys) ∧
      ys.length = t.length ∧
      ∀ i (hi : i < t.length) (hi' : i < ys.length),
        ys.get ⟨i, hi'⟩ = np_interp (a * t.get ⟨i, hi⟩ - tau) t y f f ∧
        (a * t.get ⟨i, hi⟩ - tau < t.head hne → ys.get ⟨i, hi'⟩ = f) ∧
        (t.getLast hne < a * t.get ⟨i, hi⟩ - tau → ys.get ⟨i, hi'⟩ = f) ∧
        (∀ hy : y ≠ [], a * t.get ⟨i, hi⟩ - tau = t.head hne →
          ys.get ⟨i, hi'⟩ = y.head hy) ∧
        (∀ hy : y ≠ [], a * t.get ⟨i, hi⟩ - tau = t.getLast hne →
          ys.get ⟨i, hi'⟩ = y.getLast hy) ∧
        (t.head hne ≤ a * t.get ⟨i, hi⟩ - tau →
          a * t.get ⟨i, hi⟩ - tau ≤ t.getLast hne → 2 ≤ t.length →
          IsLinInterpAt t y (a * t.get ⟨i, hi⟩ - tau) (ys.get ⟨i, hi'⟩)) := by
  refine ⟨t.map (fun ti => np_interp (a * ti - tau) t y f f), ?_, by simp, ?_⟩
  · exact time_shift_and_scale_ok tau a f ha hlen hne
  · intro i hi hi'
    have hget : (t.map (fun ti => np_interp (a * ti - tau) t y f f)).get ⟨i, hi'⟩ =
        np_interp (a * t.get ⟨i, hi⟩ - tau) t y f f := by
      simp
    obtain ⟨hbelow, habove, hhead, hlast, hmid⟩ :=
      np_interp_policy hs hne hlen (a * t.get ⟨i, hi⟩ - tau) f
    rw [hget]
    exact ⟨rfl, hbelow, habove, hhead, hlast, hmid⟩

/-- Witness for C3 at `t = [0, 1]`, `y = [0, 10]`, `tau = 1`, `a = 2`,
`f = 99`. -/
theorem C3_time_shift_and_scale_witness :
    ∃ ys : List ℚ, time_shift_and_scale [0, 1] [0, 10] 1 2 99 = .ok ([0, 1], ys) := by
  obtain ⟨ys, hok, -⟩ := C3_time_shift_and_scale [0, 1] [0, 10] 1 2 99
    (by norm_num [List.pairwise_cons]) (by simp) (by simp) (by norm_num)
  exact ⟨ys, hok⟩

/-- C7: scaling by `a = 1` is the identity on amplitudes regardless of the
fill value: on a nonempty grid (the claim speaks of interior samples)
every output amplitude, interior samples included, equals the
corresponding input amplitude, independently of `f`. -/
theorem C7_unit_scale_identity (t y : List ℚ) (f : ℚ)
    (hs : t.Pairwise (· < ·)) (hne : t ≠ []) (hlen : t.length = y.length) :
    ∃ ys : List ℚ, time_scale t y 1 f = .ok (t, ys) ∧ ys.length = t.length ∧
      ∀ i (hi' : i < ys.length) (hiy : i < y.length),
        ys.get ⟨i, hi'⟩ = y.get ⟨i, hiy⟩ := by
  refine ⟨t.map (fun ti => np_interp (1 * ti) t y f f), ?_, by simp, ?_⟩
  · exact time_scale_ok 1 f one_ne_zero hlen hne
  · intro i hi' hiy
    have hi : i < t.length := by simpa using hi'
    have hget : (t.map (fun ti => np_interp (1 * ti) t y f f)).get ⟨i, hi'⟩ =
        np_interp (1 * t.get ⟨i, hi⟩) t y f f := by
      simp
    rw [hget, one_mul, np_interp_self hs hlen f f i hi hiy]

/-- Witness for C7 at `t = [0, 1]`, `y = [3, 4]`, `f = 77`: the amplitudes
come back unchanged. -/
theorem C7_unit_scale_identity_witness :
    ∃ ys : List ℚ, time_scale [0, 1] [3, 4] 1 77 = .ok ([0, 1], ys) ∧
      ys.length = 2 := by
  obtain ⟨ys, hok, hl, -⟩ := C7_unit_scale_identity [0, 1] [3, 4] 77
    (by norm_num [List.pairwise_cons]) (by simp) (by simp)
  exact ⟨ys, hok, by simpa using hl⟩

/-- C5 counterexample: at `freq = 1`, `t0 = 0`, `t1 = 1`, `amp = 1`,
`fs = 1` the single sample has `frac = 0`, and its amplitude is `+1 = +amp`,
not the `-amp` the claim states for `frac = 0`. -/
theorem C5_vertex_counterexample :
    triangle_signal (1 : ℚ) 0 1 1 1 = .ok ([0], [1]) ∧
    Int.fract ((1 : ℚ) * 0) = 0 ∧ (1 : ℚ) ≠ -1 := by
  have hc : (Int.ceil ((1 - 0 : ℚ) / (1 / 1))).toNat = 1 := by
    have h : Int.ceil ((1 - 0 : ℚ) / (1 / 1)) = 1 := by norm_num
    rw [h]
    rfl
  have ht : _make_timebase (0 : ℚ) 1 1 = .ok [0] := by
    rw [_make_timebase, if_neg (by norm_num), if_neg (by norm_num)]
    simp only [arange, hc, List.range_succ, List.range_zero, List.nil_append,
      List.map_cons, List.map_nil]
    norm_num
  refine ⟨?_, by simp, by norm_num⟩
  rw [triangle_signal, ht]
  simp only [Except.map]
  norm_num [Int.fract_zero]

/-- C5 amended: each triangle sample equals
`amp * (2 * |2 * frac - 1| - 1)` with `frac = (freq * t[i]) mod 1 ∈ [0, 1)`;
at `frac = 0` (i.e. `freq * t[i]` an integer) the amplitude equals `+amp`,
and at `frac = 1/2` it equals `-amp` — the code's shape formula places the
peak at the wrap point, opposite to the claim's stated vertex values. -/
theorem C5_triangle_samples (freq t0 t1 amp fs : ℚ) (hfs : 0 < fs)
    (ht : t0 < t1) :
    ∃ t ys : List ℚ, triangle_signal freq t0 t1 amp fs = .ok (t, ys) ∧
      ys.length = t.length ∧
      ∀ i (hi : i < t.length) (hi' : i < ys.length),
        ys.get ⟨i, hi'⟩ =
          amp * (2 * |2 * Int.fract (freq * t.get ⟨i, hi⟩) - 1| - 1) ∧
        0 ≤ Int.fract (freq * t.get ⟨i, hi⟩) ∧
        Int.fract (freq * t.get ⟨i, hi⟩) < 1 ∧
        (Int.fract (freq * t.get ⟨i, hi⟩) = 0 → ys.get ⟨i, hi'⟩ = amp) ∧
        (Int.fract (freq * t.get ⟨i, hi⟩) = 1 / 2 → ys.get ⟨i, hi'⟩ = -amp) := by
  rw [triangle_signal, _make_timebase, if_neg (not_le.mpr hfs),
    if_neg (not_le.mpr ht)]
  simp only [Except.map]
  refine ⟨arange t0 t1 (1 / fs),
    (arange t0 t1 (1 / fs)).map
      (fun ti => amp * (2 * |2 * Int.fract (freq * ti) - 1| - 1)),
    rfl, by simp, ?_⟩
  intro i hi hi'
  have hget : ((arange t0 t1 (1 / fs)).map
      (fun ti => amp * (2 * |2 * Int.fract (freq * ti) - 1| - 1))).get ⟨i, hi'⟩ =
      amp * (2 * |2 * Int.fract (freq * (arange t0 t1 (1 / fs)).get ⟨i, hi⟩) - 1| - 1) := by
    simp
  refine ⟨hget, Int.fract_nonneg _, Int.fract_lt_one _, ?_, ?_⟩
  · intro h0
    rw [hget, h0]
    norm_num
  · intro hhalf
    rw [hget, hhalf]
    norm_num

/-- Witness for the amended C5 at `freq = 1`, `t0 = 0`, `t1 = 1`,
`amp = 1`, `fs = 1`. -/
theorem C5_triangle_samples_witness :
    ∃ t ys : List ℚ, triangle_signal 1 0 1 1 1 = .ok (t, ys) ∧
      ys.length = t.length := by
  obtain ⟨t, ys, hok, hl, -⟩ :=
    C5_triangle_samples 1 0 1 1 1 (by norm_num) (by norm_num)
  exact ⟨t, ys, hok, hl⟩

/-- C6: the combined operator is not the composition of the exact shift
and the interpolative scale: at `t = [0, 1]`, `y = [0, 1]`, `tau = 1`,
`a = 1`, `fill = 5` the combined transform yields amplitudes `[5, 0]` on
the original grid, while `scale` applied to the output of `shift` yields
`[0, 1]` on the shifted grid `[1, 2]` — different results. -/
theorem C6_not_shift_then_scale :
    time_shift_and_scale [(0 : ℚ), 1] [0, 1] 1 1 5 = .ok ([0, 1], [5, 0]) ∧
    (time_shift [(0 : ℚ), 1] [0, 1] 1).bind
      (fun p => time_scale p.1 p.2 1 5) = .ok ([1, 2], [0, 1]) ∧
    (([0, 1], [5, 0]) : List ℚ × List ℚ) ≠ ([1, 2], [0, 1]) := by
  refine ⟨?_, ?_, by norm_num⟩
  · rw [time_shift_and_scale, if_neg (by norm_num), if_neg (by norm_num)]
    norm_num [np_interp_array, np_interp, interpSegs, Except.map]
  · rw [time_shift, if_neg (by norm_num)]
    norm_num [Except.bind, time_scale, np_interp_array, np_interp, interpSegs,
      Except.map]

/-- C10: amplitude bound for both generators: on every valid input each
sine sample and each triangle sample lies in `[-|amp|, |amp|]`, for
negative `amp` as well as positive. -/
theorem C10_amplitude_bound :
    (∀ freq t0 t1 amp fs phase : ℝ, 0 < fs → t0 < t1 →
      ∃ t ys : List ℝ, sine_signal freq t0 t1 amp fs phase = .ok (t, ys) ∧
        ∀ v ∈ ys, -|amp| ≤ v ∧ v ≤ |amp|) ∧
    (∀ freq t0 t1 amp fs : ℚ, 0 < fs → t0 < t1 →
      ∃ t ys : List ℚ, triangle_signal freq t0 t1 amp fs = .ok (t, ys) ∧
        ∀ v ∈ ys, -|amp| ≤ v ∧ v ≤ |amp|) := by
  constructor
  · intro freq t0 t1 amp fs phase hfs ht
    rw [sine_signal, _make_timebase, if_neg (not_le.mpr hfs),
      if_neg (not_le.mpr ht)]
    simp only [Except.map]
    refine ⟨arange t0 t1 (1 / fs),
      (arange t0 t1 (1 / fs)).map
        (fun ti => amp * Real.sin (2 * Real.pi * freq * ti + phase)),
      rfl, ?_⟩
    intro v hv
    obtain ⟨ti, -, rfl⟩ := List.mem_map.mp hv
    have habs : |amp * Real.sin (2 * Real.pi * freq * ti + phase)| ≤ |amp| := by
      rw [abs_mul]
      calc |amp| * |Real.sin (2 * Real.pi * freq * ti + phase)| ≤ |amp| * 1 :=
            mul_le_mul_of_nonneg_left (Real.abs_sin_le_one _) (abs_nonneg _)
        _ = |amp| := mul_one _
    exact abs_le.mp habs
  · intro freq t0 t1 amp fs hfs ht
    rw [triangle_signal, _make_timebase, if_neg (not_le.mpr hfs),
      if_neg (not_le.mpr ht)]
    simp only [Except.map]
    refine ⟨arange t0 t1 (1 / fs),
      (arange t0 t1 (1 / fs)).map
        (fun ti => amp * (2 * |2 * Int.fract (freq * ti) - 1| - 1)),
      rfl, ?_⟩
    intro v hv
    obtain ⟨ti, -, rfl⟩ := List.mem_map.mp hv
    have hfr0 : (0 : ℚ) ≤ Int.fract (freq * ti) := Int.fract_nonneg _
    have hfr1 : Int.fract (freq * ti) < 1 := Int.fract_lt_one _
    have hu0 : (0 : ℚ) ≤ |2 * Int.fract (freq * ti) - 1| := abs_nonneg _
    have hu1 : |2 * Int.fract (freq * ti) - 1| ≤ 1 := by
      rw [abs_le]
      constructor <;> linarith
    have hs1 : |2 * |2 * Int.fract (freq * ti) - 1| - 1| ≤ 1 := by
      rw [abs_le]
      constructor <;> linarith
    have habs : |amp * (2 * |2 * Int.fract (freq * ti) - 1| - 1)| ≤ |amp| := by
      rw [abs_mul]
      calc |amp| * |2 * |2 * Int.fract (freq * ti) - 1| - 1| ≤ |amp| * 1 :=
            mul_le_mul_of_nonneg_left hs1 (abs_nonneg _)
        _ = |amp| := mul_one _
    exact abs_le.mp habs

example : _make_timebase (0 : ℚ) 1 0 = .error .invalidSamplingRate := by
  norm_num [_make_timebase]

example : np_interp (1 / 2 : ℚ) [0, 1] [0, 10] 7 7 = 5 := by
  norm_num [np_interp, interpSegs]

example : np_interp (3 : ℚ) [0, 1] [0, 10] 7 7 = 7 := by
  norm_num [np_interp, interpSegs]

example : np_interp (-1 : ℚ) [0, 1] [0, 10] 7 7 = 7 := by
  norm_num [np_interp, interpSegs]

example : np_interp (1 : ℚ) [0, 1] [0, 10] 7 7 = 10 := by
  norm_num [np_interp, interpSegs]
